import Mathlib

/-!
Verification of the Wyndham availability-record pipeline.

The definitions below are a shallow embedding of the Python sources:
* `src/CSV Convertors/response_to_csv.py` (`parse_network_response`,
  `aggregate_by_date`, `process_directory`),
* `src/monitoring/wyndham_csv_watcher.py` (`AvailabilityCSVGenerator`:
  `_parse_response`, `_append_to_csv`, `regenerate_sorted_csv`),
* `src/monitoring/wyndham_realtime_scanner.py` (`RealtimeCSVHandler`),
* `src/monitoring/wyndham_monitor.py` (`CSVMonitor.read_csv_stats`).
-/

namespace Wyndham

open scoped List

/-- Python `needle in haystack` prefix step: does `needle` start `haystack`? -/
def startsWithChars : List Char → List Char → Bool
  | [], _ => true
  | _ :: _, [] => false
  | a :: as, b :: bs => a == b && startsWithChars as bs

/-- Python substring containment `needle in haystack` on char lists. -/
def containsChars (needle : List Char) : List Char → Bool
  | [] => startsWithChars needle []
  | c :: rest => startsWithChars needle (c :: rest) || containsChars needle rest

/-- Python's `sub in s` on strings (substring containment). -/
def pyIn (sub s : String) : Bool :=
  containsChars sub.toList s.toList

/-- Char is an ASCII decimal digit. -/
def isDigitChar (c : Char) : Bool := '0' ≤ c && c ≤ '9'

/-- Value of a nonempty all-digit char list, else `none`. -/
def digitsToNat? (cs : List Char) : Option Nat :=
  if cs = [] then none
  else if cs.all isDigitChar then
    some (cs.foldl (fun n c => 10 * n + (c.toNat - '0'.toNat)) 0)
  else none

/-- Models Python's `int(...)` applied to the JSON string values of
`availableCount`: an optional sign followed by one or more decimal digits,
`none` when the string is not a valid integer literal (Python raises
`ValueError` there).  Whitespace trimming and `_` separators accepted by
Python are not modelled; the pipeline's inputs never contain them. -/
def pyInt? (s : String) : Option Int :=
  match s.toList with
  | '-' :: rest => (digitsToNat? rest).map (fun n => -(n : Int))
  | '+' :: rest => (digitsToNat? rest).map (fun n => (n : Int))
  | cs => (digitsToNat? cs).map (fun n => (n : Int))

/-! ## Raw payload tree and canonical records

Mirrors the JSON shape consumed by `parse_network_response` /
`AvailabilityCSVGenerator._parse_response`:
`resorts[] → resortOfferings[] → accomdationClasses[] → calendarDays[] →
inventoryOfferings[]`.  String fields hold the value of `dict.get(key, default)`
with the source's defaults already applied, and the two flags hold the Python
truthiness of `hasAvailableUnits` / `available`. -/

structure Inventory where
  availableCount : String
  inventoryOfferingHashKey : String
  invenOffrngLabel : String
deriving DecidableEq

structure CalendarDay where
  available : Bool
  date : String
  inventoryOfferings : List Inventory
deriving DecidableEq

structure Accommodation where
  calendarDays : List CalendarDay
deriving DecidableEq

structure Offering where
  offeringId : String
  offeringLabel : String
  accomdationClasses : List Accommodation
deriving DecidableEq

structure Resort where
  hasAvailableUnits : Bool
  resortOfferings : List Offering
deriving DecidableEq

/-- A payload: `resorts` is empty both when the key is missing and when the
collection is empty (the sources treat the two alike). -/
structure Payload where
  resorts : List Resort
deriving DecidableEq

/-- One CSV data row (`fieldnames` in all three scripts). -/
structure Row where
  date : String
  offeringId : String
  inventoryOfferingHashKey : String
  invenOffrngLabel : String
  availableCount : String
deriving DecidableEq

/-- The literal the sources test with Python's `in`. -/
def prPhrase : String := "Presidential Reserve"

/-- The `display_offering_id` computation (`response_to_csv.py` lines 49-57,
`wyndham_csv_watcher.py` lines 115-121): when the offering label contains
"Presidential Reserve" and the offering id does not, the phrase is appended to
the id; otherwise the id is unchanged. -/
def displayOfferingId (offering_id offering_label : String) : String :=
  if pyIn prPhrase offering_label then
    if pyIn prPhrase offering_id then offering_id
    else offering_id ++ " Presidential Reserve"
  else offering_id

/-- The inventory-label rewrite (`response_to_csv.py` lines 82-83,
`wyndham_csv_watcher.py` lines 140-141): under a "Presidential Reserve"
offering, an inventory label that lacks the phrase gets the
" (Presidential Reserve)" suffix. -/
def adjustInventoryLabel (offering_label inventory_label : String) : String :=
  if pyIn prPhrase offering_label && !(pyIn prPhrase inventory_label) then
    inventory_label ++ " (Presidential Reserve)"
  else inventory_label

/-!  The traversal (`response_to_csv.py` lines 26-103, `_parse_response` lines
97-159) runs inside a single `try`: an unparseable `availableCount` raises
`ValueError`, which escapes every loop and is caught at function level, where
the rows accumulated so far are returned.  Each level below therefore returns
`Except (List Row) (List Row)`: `.ok acc` is normal completion, `.error acc`
is the in-flight exception carrying the rows accumulated before it. -/

/-- One iteration of the `for inventory in inventory_offerings` body. -/
def processInventory (offering_label display_offering_id date : String)
    (inventory : Inventory) (acc : List Row) : Except (List Row) (List Row) :=
  let inventory_label := adjustInventoryLabel offering_label inventory.invenOffrngLabel
  match pyInt? inventory.availableCount with
  | none => .error acc
  | some n =>
      if n > 0 then
        .ok (acc ++ [⟨date, display_offering_id, inventory.inventoryOfferingHashKey,
                      inventory_label, inventory.availableCount⟩])
      else .ok acc

/-- The `for inventory in inventory_offerings` loop. -/
def processInventories (offering_label display_offering_id date : String) :
    List Inventory → List Row → Except (List Row) (List Row)
  | [], acc => .ok acc
  | inventory :: rest, acc =>
      match processInventory offering_label display_offering_id date inventory acc with
      | .error a => .error a
      | .ok a => processInventories offering_label display_offering_id date rest a

/-- The `for day in calendar_days` loop (skips days with falsy `available`). -/
def processDays (offering_label display_offering_id : String) :
    List CalendarDay → List Row → Except (List Row) (List Row)
  | [], acc => .ok acc
  | day :: rest, acc =>
      if day.available then
        match processInventories offering_label display_offering_id day.date
            day.inventoryOfferings acc with
        | .error a => .error a
        | .ok a => processDays offering_label display_offering_id rest a
      else processDays offering_label display_offering_id rest acc

/-- The `for accommodation in accommodation_classes` loop. -/
def processAccommodations (offering_label display_offering_id : String) :
    List Accommodation → List Row → Except (List Row) (List Row)
  | [], acc => .ok acc
  | accommodation :: rest, acc =>
      match processDays offering_label display_offering_id
          accommodation.calendarDays acc with
      | .error a => .error a
      | .ok a => processAccommodations offering_label display_offering_id rest a

/-- The `for offering in resort_offerings` loop. -/
def processOfferings : List Offering → List Row → Except (List Row) (List Row)
  | [], acc => .ok acc
  | offering :: rest, acc =>
      match processAccommodations offering.offeringLabel
          (displayOfferingId offering.offeringId offering.offeringLabel)
          offering.accomdationClasses acc with
      | .error a => .error a
      | .ok a => processOfferings rest a

/-- The `for resort in data['resorts']` loop (skips resorts with falsy
`hasAvailableUnits`). -/
def processResorts : List Resort → List Row → Except (List Row) (List Row)
  | [], acc => .ok acc
  | resort :: rest, acc =>
      if resort.hasAvailableUnits then
        match processOfferings resort.resortOfferings acc with
        | .error a => .error a
        | .ok a => processResorts rest a
      else processResorts rest acc

/-- Collapse the exception: both a normal return and the function-level
`except` hand back the accumulated rows. -/
def excRows : Except (List Row) (List Row) → List Row
  | .ok rows => rows
  | .error rows => rows

/-- `parse_network_response` / `AvailabilityCSVGenerator._parse_response`:
raw payload to the list of emitted rows (empty when `resorts` is missing or
empty; partial when an `availableCount` fails to parse). -/
def parseResponse (p : Payload) : List Row :=
  if p.resorts = [] then []
  else excRows (processResorts p.resorts [])

/-- Convenience constructor for the one-resort / one-offering /
one-accommodation / one-day payloads used throughout the theorems. -/
def mkSinglePayload (hasUnits : Bool) (offering_id offering_label : String)
    (avail : Bool) (d : String) (invs : List Inventory) : Payload :=
  ⟨[⟨hasUnits, [⟨offering_id, offering_label, [⟨[⟨avail, d, invs⟩]⟩]⟩]⟩]⟩

/-! ## Ledger

`unique_combinations` is a Python `dict` keyed by the four-field identity key;
Python dicts preserve insertion order, so the ledger is modelled as the
insertion-ordered list of its values (`_append_to_csv` lines 161-182,
`update_csv_realtime` lines 167-191, and the same first-wins loop in
`aggregate_by_date` lines 116-124). -/

/-- The identity key `(row['date'], row['offeringId'],
row['inventoryOfferingHashKey'], row['invenOffrngLabel'])`. -/
def idKey (r : Row) : String × String × String × String :=
  (r.date, r.offeringId, r.inventoryOfferingHashKey, r.invenOffrngLabel)

/-- `key in unique_combinations`. -/
def keyMem (L : List Row) (k : String × String × String × String) : Bool :=
  L.any (fun s => idKey s = k)

/-- One first-wins insertion: `if key not in unique_combinations:
unique_combinations[key] = row`. -/
def ledgerInsert (L : List Row) (r : Row) : List Row :=
  if keyMem L (idKey r) then L else L ++ [r]

/-- The `for row in new_rows` loop of `_append_to_csv`. -/
def ledgerInsertAll (L : List Row) (rows : List Row) : List Row :=
  rows.foldl ledgerInsert L

/-- `len(unique_combinations)`. -/
def ledgerSize (L : List Row) : Nat := L.length

/-! ## Sort order

`sorted(..., key=lambda x: (x['date'], x['offeringId'], x['invenOffrngLabel']))`
compares key tuples lexicographically, strings by code point; Python's
`sorted` is a stable merge sort, modelled by `List.mergeSort`. -/

/-- Strict code-point lexicographic order on char lists (Python `<` on
strings). -/
def lexLT : List Char → List Char → Bool
  | [], [] => false
  | [], _ :: _ => true
  | _ :: _, [] => false
  | a :: as, b :: bs => decide (a < b) || (a == b && lexLT as bs)

/-- Python `<=` on strings. -/
def strLE (a b : String) : Bool := lexLT a.toList b.toList || a == b

/-- Python `<` on strings. -/
def strLT (a b : String) : Bool := lexLT a.toList b.toList

/-- Lexicographic `<=` on the three-field sort-key tuples, as Python compares
them during `sorted`. -/
def keyLE : String × String × String → String × String × String → Bool
  | (d₁, o₁, l₁), (d₂, o₂, l₂) =>
    strLT d₁ d₂ || (d₁ == d₂ && (strLT o₁ o₂ || (o₁ == o₂ && strLE l₁ l₂)))

/-- The sort key `(x['date'], x['offeringId'], x['invenOffrngLabel'])`. -/
def sortKey (r : Row) : String × String × String :=
  (r.date, r.offeringId, r.invenOffrngLabel)

/-- Row comparison used by the regenerate sort. -/
def rowLE (a b : Row) : Bool := keyLE (sortKey a) (sortKey b)

/-- The Ledger's sorted snapshot: `sorted(unique_combinations.values(),
key=...)` (`regenerate_sorted_csv` lines 188-189 / 201-202). -/
def snapshotSorted (L : List Row) : List Row := L.mergeSort rowLE

/-- The fixed CSV header. -/
def csvHeader : List String :=
  ["date", "offeringId", "inventoryOfferingHashKey", "invenOffrngLabel", "availableCount"]

/-- A data row as the `DictWriter` emits it. -/
def rowFields (r : Row) : List String :=
  [r.date, r.offeringId, r.inventoryOfferingHashKey, r.invenOffrngLabel, r.availableCount]

/-- `regenerate_sorted_csv`: the rewritten file as a list of lines —
`writeheader()` then the sorted data rows. -/
def regenerateOutput (L : List Row) : List (List String) :=
  csvHeader :: (snapshotSorted L).map rowFields

/-! ## Batch path (`response_to_csv.py`) -/

/-- The `unique_combinations` dict built by `aggregate_by_date`
(lines 116-124), as its insertion-ordered value list. -/
def uniqueCombinationsOf (all_data : List Row) : List Row :=
  all_data.foldl
    (fun acc row => if keyMem acc (idKey row) then acc else acc ++ [row]) []

/-- `aggregate_by_date` (lines 105-130): first-occurrence dedup over the
four-field key, then the stable three-field sort. -/
def aggregateByDate (all_data : List Row) : List Row :=
  (uniqueCombinationsOf all_data).mergeSort rowLE

/-- Feeding a sequence of payloads through the watcher pipeline:
parse each payload, offer every parsed row to the Ledger in order. -/
def ingestPayloads (ps : List Payload) : List Row :=
  ps.foldl (fun L p => ledgerInsertAll L (parseResponse p)) []

/-! ## Sink write with fallback (`process_directory` lines 169-214)

File-system success is abstracted by two oracles: `primaryOk` (the write to
`output_path` inside the first `try` succeeds) and `fallbackOk` (the write to
`alt_output_path = Path.cwd() / output_file` inside the nested `try`
succeeds).  The function records the control flow of the source: which paths
were attempted, where the file ended up, whether the final error message was
printed, and the value of `aggregated_data` afterwards. -/

inductive WritePath where
  | primary
  | fallback
deriving DecidableEq

structure SinkOutcome where
  attempts : List WritePath
  written : Option WritePath
  reportedFailure : Bool
  dataAfter : List Row
deriving DecidableEq

/-- The write phase of `process_directory`: try the output path; on failure
try the working-directory fallback once; on a second failure print the error
and fall through, leaving `aggregated_data` untouched. -/
def sinkWrite (aggregated_data : List Row) (primaryOk fallbackOk : Bool) :
    SinkOutcome :=
  if primaryOk then
    ⟨[.primary], some .primary, false, aggregated_data⟩
  else if fallbackOk then
    ⟨[.primary, .fallback], some .fallback, false, aggregated_data⟩
  else
    ⟨[.primary, .fallback], none, true, aggregated_data⟩

/-! ## Stats Reader (`CSVMonitor.read_csv_stats` lines 45-80)

The row loop runs inside one `try`; `int(row.get('availableCount', 0))`
(line 55) aborts the loop on an unparseable count, returning the statistics
accumulated so far.  Only the `presidential_count` accumulator is modelled;
note the containment test sits inside `if room_label:` (lines 71-75). -/

def presidentialLoop : List Row → Nat → Nat
  | [], c => c
  | row :: rest, c =>
      match pyInt? row.availableCount with
      | none => c
      | some _ =>
          if row.invenOffrngLabel ≠ "" then
            if pyIn "Presidential" row.invenOffrngLabel
                || pyIn "Presidential" row.offeringId then
              presidentialLoop rest (c + 1)
            else presidentialLoop rest c
          else presidentialLoop rest c

/-- The monitor's `stats['presidential_count']` for a given list of data
rows. -/
def presidentialCount (rows : List Row) : Nat := presidentialLoop rows 0

/-- Modelled from the spec: the count C9 asserts — every row whose
`offeringId` or `invenOffrngLabel` contains "Presidential", including rows
with an empty label. -/
def claimedPresidentialCount (rows : List Row) : Nat :=
  (rows.filter (fun r => pyIn "Presidential" r.offeringId
      || pyIn "Presidential" r.invenOffrngLabel)).length

/-! ## Concrete sample data used by witnesses and counterexamples -/

/-- A record with count "2". -/
def rowD2 : Row := ⟨"2025-06-01", "A1", "h1", "K", "2"⟩

/-- Same identity key as `rowD2`, different `availableCount`. -/
def rowD3 : Row := ⟨"2025-06-01", "A1", "h1", "K", "3"⟩

/-- A record with a different identity key. -/
def rowB : Row := ⟨"2025-06-02", "B2", "h2", "Q", "1"⟩

/-- A row whose `offeringId` contains "Presidential" but whose label is
empty. -/
def rowPresEmptyLabel : Row := ⟨"2025-06-01", "Presidential P", "h9", "", "2"⟩

/-- Inventory entry whose `availableCount` is not an integer literal. -/
def invBad : Inventory := ⟨"abc", "h1", "K1"⟩

/-- Well-formed sibling inventory entry. -/
def invGood : Inventory := ⟨"5", "h2", "K2"⟩

/-- Payload with the malformed entry first, then the good sibling. -/
def payloadBadThenGood : Payload :=
  mkSinglePayload true "A1" "L" true "2025-06-01" [invBad, invGood]

/-- The same payload with only the good sibling. -/
def payloadGoodOnly : Payload :=
  mkSinglePayload true "A1" "L" true "2025-06-01" [invGood]

/-- Payload producing the identity key of `rowD2` with count "2". -/
def payloadCount2 : Payload :=
  mkSinglePayload true "A1" "L" true "2025-06-01" [⟨"2", "h1", "K"⟩]

/-- Payload producing the same identity key with count "3". -/
def payloadCount3 : Payload :=
  mkSinglePayload true "A1" "L" true "2025-06-01" [⟨"3", "h1", "K"⟩]

/-- Payload producing `rowB` (a distinct identity and sort key). -/
def payloadB : Payload :=
  mkSinglePayload true "B2" "L" true "2025-06-02" [⟨"1", "h2", "Q"⟩]

/-! ## Properties of the lexicographic comparator -/

lemma lexLT_irrefl : ∀ as : List Char, lexLT as as = false
  | [] => rfl
  | a :: as => by
      simp [lexLT, lt_irrefl, lexLT_irrefl as]

lemma lexLT_trans : ∀ {as bs cs : List Char},
    lexLT as bs = true → lexLT bs cs = true → lexLT as cs = true
  | [], _ :: _, _ :: _, _, _ => rfl
  | a :: as, b :: bs, c :: cs, h₁, h₂ => by
      simp only [lexLT, Bool.or_eq_true, Bool.and_eq_true, decide_eq_true_eq,
        beq_iff_eq] at h₁ h₂ ⊢
      rcases h₁ with h₁ | ⟨rfl, h₁⟩
      · rcases h₂ with h₂ | ⟨rfl, _⟩
        · exact Or.inl (lt_trans h₁ h₂)
        · exact Or.inl h₁
      · rcases h₂ with h₂ | ⟨rfl, h₂⟩
        · exact Or.inl h₂
        · exact Or.inr ⟨rfl, lexLT_trans h₁ h₂⟩

lemma lexLT_connex : ∀ {as bs : List Char},
    lexLT as bs = false → lexLT bs as = false → as = bs
  | [], [], _, _ => rfl
  | [], _ :: _, h, _ => by simp [lexLT] at h
  | _ :: _, [], _, h' => by simp [lexLT] at h'
  | a :: as, b :: bs, h, h' => by
      simp only [lexLT, Bool.or_eq_false_iff, Bool.and_eq_false_iff,
        decide_eq_false_iff_not, beq_eq_false_iff_ne, ne_eq] at h h'
      have hab : a = b := le_antisymm (le_of_not_lt h'.1) (le_of_not_lt h.1)
      subst hab
      rcases h.2 with h₂ | h₂
      · exact absurd rfl h₂
      · rcases h'.2 with h₂' | h₂'
        · exact absurd rfl h₂'
        · exact congrArg (a :: ·) (lexLT_connex h₂ h₂')

lemma lexLT_asymm {as bs : List Char} (h : lexLT as bs = true) :
    lexLT bs as = false := by
  by_contra hne
  have h' : lexLT bs as = true := by
    cases hx : lexLT bs as
    · exact absurd hx hne
    · rfl
  have := lexLT_trans h h'
  rw [lexLT_irrefl] at this
  exact Bool.false_ne_true this

lemma strLT_trans {a b c : String} (h₁ : strLT a b = true)
    (h₂ : strLT b c = true) : strLT a c = true :=
  lexLT_trans h₁ h₂

lemma strLT_connex {a b : String} (h : strLT a b = false)
    (h' : strLT b a = false) : a = b := by
  have : a.toList = b.toList := lexLT_connex h h'
  exact String.ext this

lemma strLT_asymm {a b : String} (h : strLT a b = true) : strLT b a = false :=
  lexLT_asymm h

lemma strLT_irrefl (a : String) : strLT a a = false := lexLT_irrefl _

lemma strLE_iff {a b : String} :
    strLE a b = true ↔ strLT a b = true ∨ a = b := by
  simp [strLE, strLT, beq_iff_eq]

lemma keyLE_refl (k : String × String × String) : keyLE k k = true := by
  rcases k with ⟨d, o, l⟩
  simp [keyLE, strLE_iff]

lemma keyLE_total (k₁ k₂ : String × String × String) :
    keyLE k₁ k₂ = true ∨ keyLE k₂ k₁ = true := by
  rcases k₁ with ⟨d₁, o₁, l₁⟩
  rcases k₂ with ⟨d₂, o₂, l₂⟩
  simp only [keyLE, Bool.or_eq_true, Bool.and_eq_true, beq_iff_eq, strLE_iff]
  cases hd : strLT d₁ d₂
  · cases hd' : strLT d₂ d₁
    · have : d₁ = d₂ := strLT_connex hd hd'
      subst this
      cases ho : strLT o₁ o₂
      · cases ho' : strLT o₂ o₁
        · have : o₁ = o₂ := strLT_connex ho ho'
          subst this
          cases hl : strLT l₁ l₂
          · cases hl' : strLT l₂ l₁
            · have : l₁ = l₂ := strLT_connex hl hl'
              subst this
              exact Or.inl (Or.inr ⟨rfl, Or.inr ⟨rfl, Or.inr rfl⟩⟩)
            · exact Or.inr (Or.inr ⟨rfl, Or.inr ⟨rfl, Or.inl rfl⟩⟩)
          · exact Or.inl (Or.inr ⟨rfl, Or.inr ⟨rfl, Or.inl rfl⟩⟩)
        · exact Or.inr (Or.inr ⟨rfl, Or.inl rfl⟩)
      · exact Or.inl (Or.inr ⟨rfl, Or.inl rfl⟩)
    · exact Or.inr (Or.inl rfl)
  · exact Or.inl (Or.inl rfl)

lemma keyLE_trans {k₁ k₂ k₃ : String × String × String}
    (h₁ : keyLE k₁ k₂ = true) (h₂ : keyLE k₂ k₃ = true) :
    keyLE k₁ k₃ = true := by
  rcases k₁ with ⟨d₁, o₁, l₁⟩
  rcases k₂ with ⟨d₂, o₂, l₂⟩
  rcases k₃ with ⟨d₃, o₃, l₃⟩
  simp only [keyLE, Bool.or_eq_true, Bool.and_eq_true, beq_iff_eq,
    strLE_iff] at h₁ h₂ ⊢
  rcases h₁ with h₁ | ⟨rfl, h₁⟩
  · rcases h₂ with h₂ | ⟨rfl, _⟩
    · exact Or.inl (strLT_trans h₁ h₂)
    · exact Or.inl h₁
  · rcases h₂ with h₂ | ⟨rfl, h₂⟩
    · exact Or.inl h₂
    · refine Or.inr ⟨rfl, ?_⟩
      rcases h₁ with h₁ | ⟨rfl, h₁⟩
      · rcases h₂ with h₂ | ⟨rfl, _⟩
        · exact Or.inl (strLT_trans h₁ h₂)
        · exact Or.inl h₁
      · rcases h₂ with h₂ | ⟨rfl, h₂⟩
        · exact Or.inl h₂
        · refine Or.inr ⟨rfl, ?_⟩
          rcases h₁ with h₁ | rfl
          · rcases h₂ with h₂ | rfl
            · exact Or.inl (strLT_trans h₁ h₂)
            · exact Or.inl h₁
          · exact h₂

lemma keyLE_antisymm {k₁ k₂ : String × String × String}
    (h₁ : keyLE k₁ k₂ = true) (h₂ : keyLE k₂ k₁ = true) : k₁ = k₂ := by
  rcases k₁ with ⟨d₁, o₁, l₁⟩
  rcases k₂ with ⟨d₂, o₂, l₂⟩
  simp only [keyLE, Bool.or_eq_true, Bool.and_eq_true, beq_iff_eq,
    strLE_iff] at h₁ h₂
  rcases h₁ with h₁ | ⟨rfl, h₁⟩
  · rcases h₂ with h₂ | ⟨heq, _⟩
    · exact absurd h₂ (by simp [strLT_asymm h₁])
    · rw [heq] at h₁; rw [strLT_irrefl] at h₁; exact absurd h₁ Bool.false_ne_true
  · rcases h₂ with h₂ | ⟨-, h₂⟩
    · rw [strLT_irrefl] at h₂; exact absurd h₂ Bool.false_ne_true
    · rcases h₁ with h₁ | ⟨rfl, h₁⟩
      · rcases h₂ with h₂ | ⟨heq, _⟩
        · exact absurd h₂ (by simp [strLT_asymm h₁])
        · rw [heq] at h₁; rw [strLT_irrefl] at h₁; exact absurd h₁ Bool.false_ne_true
      · rcases h₂ with h₂ | ⟨-, h₂⟩
        · rw [strLT_irrefl] at h₂; exact absurd h₂ Bool.false_ne_true
        · rcases h₁ with h₁ | rfl
          · rcases h₂ with h₂ | heq
            · exact absurd h₂ (by simp [strLT_asymm h₁])
            · rw [heq] at h₁; rw [strLT_irrefl] at h₁
              exact absurd h₁ Bool.false_ne_true
          · rfl

lemma rowLE_trans : ∀ (a b c : Row), rowLE a b → rowLE b c → rowLE a c :=
  fun _ _ _ h₁ h₂ => keyLE_trans h₁ h₂

lemma rowLE_total : ∀ (a b : Row), rowLE a b || rowLE b a := by
  intro a b
  rcases keyLE_total (sortKey a) (sortKey b) with h | h <;>
    simp [rowLE, h]

lemma rowLE_of_sortKey_eq {a b : Row} (h : sortKey a = sortKey b) :
    rowLE a b = true := by
  simp [rowLE, h, keyLE_refl]

lemma sortKey_eq_of_rowLE {a b : Row} (h₁ : rowLE a b = true)
    (h₂ : rowLE b a = true) : sortKey a = sortKey b :=
  keyLE_antisymm h₁ h₂

/-! ## Ledger lemmas -/

lemma keyMem_iff {L : List Row} {k : String × String × String × String} :
    keyMem L k = true ↔ ∃ s ∈ L, idKey s = k := by
  simp [keyMem]

lemma keyMem_ledgerInsert (L : List Row) (r : Row)
    (k : String × String × String × String) :
    keyMem (ledgerInsert L r) k = (keyMem L k || decide (idKey r = k)) := by
  unfold ledgerInsert
  by_cases hm : keyMem L (idKey r) = true
  · by_cases hk : idKey r = k
    · subst hk
      simp [hm]
    · simp [hm, hk]
  · rw [if_neg hm]
    simp [keyMem, List.any_append]

lemma keyMem_ledgerInsertAll (rows : List Row) (L : List Row)
    (k : String × String × String × String) :
    keyMem (ledgerInsertAll L rows) k
      = (keyMem L k || rows.any (fun r => idKey r = k)) := by
  induction rows generalizing L with
  | nil => simp [ledgerInsertAll]
  | cons a rows ih =>
      show keyMem (ledgerInsertAll (ledgerInsert L a) rows) k = _
      rw [ih, keyMem_ledgerInsert]
      simp [Bool.or_assoc]

lemma ledgerInsert_of_keyMem {L : List Row} {r : Row}
    (h : keyMem L (idKey r) = true) : ledgerInsert L r = L := by
  simp [ledgerInsert, h]

lemma mem_of_mem_ledgerInsert {L : List Row} {a r : Row}
    (h : r ∈ ledgerInsert L a) : r ∈ L ∨ r = a := by
  unfold ledgerInsert at h
  by_cases hm : keyMem L (idKey a) = true
  · rw [if_pos hm] at h
    exact Or.inl h
  · rw [if_neg hm] at h
    simpa using h

lemma mem_of_mem_ledgerInsertAll {rows L : List Row} {r : Row}
    (h : r ∈ ledgerInsertAll L rows) : r ∈ L ∨ r ∈ rows := by
  induction rows generalizing L with
  | nil => exact Or.inl h
  | cons a rows ih =>
      have h' : r ∈ ledgerInsertAll (ledgerInsert L a) rows := h
      rcases ih h' with hL | hr
      · rcases mem_of_mem_ledgerInsert hL with hL' | rfl
        · exact Or.inl hL'
        · exact Or.inr (List.mem_cons_self _ _)
      · exact Or.inr (List.mem_cons_of_mem _ hr)

lemma map_idKey_nodup_ledgerInsert {L : List Row} (r : Row)
    (h : (L.map idKey).Nodup) : ((ledgerInsert L r).map idKey).Nodup := by
  unfold ledgerInsert
  by_cases hm : keyMem L (idKey r) = true
  · rw [if_pos hm]; exact h
  · rw [if_neg hm, List.map_append]
    rw [List.nodup_append]
    refine ⟨h, List.nodup_singleton _, ?_⟩
    intro k hk hk'
    simp only [List.map_singleton, List.mem_singleton] at hk'
    subst hk'
    apply hm
    rw [keyMem_iff]
    simp only [List.mem_map] at hk
    obtain ⟨s, hs, hks⟩ := hk
    exact ⟨s, hs, hks⟩

lemma map_idKey_nodup_ledgerInsertAll (rows : List Row) (L : List Row)
    (h : (L.map idKey).Nodup) :
    ((ledgerInsertAll L rows).map idKey).Nodup := by
  induction rows generalizing L with
  | nil => exact h
  | cons a rows ih => exact ih _ (map_idKey_nodup_ledgerInsert a h)

lemma keyMem_ledgerInsertAll_of_mem {rows L : List Row} {r : Row}
    (h : r ∈ rows) : keyMem (ledgerInsertAll L rows) (idKey r) = true := by
  rw [keyMem_ledgerInsertAll]
  have hx : rows.any (fun s => idKey s = idKey r) = true := by
    simp only [List.any_eq_true, decide_eq_true_eq]
    exact ⟨r, h, rfl⟩
  simp [hx]

lemma ledgerInsertAll_of_all_keyMem {rows L : List Row}
    (h : ∀ r ∈ rows, keyMem L (idKey r) = true) :
    ledgerInsertAll L rows = L := by
  induction rows with
  | nil => rfl
  | cons a rows ih =>
      show ledgerInsertAll (ledgerInsert L a) rows = L
      rw [ledgerInsert_of_keyMem (h a (List.mem_cons_self _ _))]
      exact ih (fun r hr => h r (List.mem_cons_of_mem _ hr))

lemma ledgerInsertAll_append (L a b : List Row) :
    ledgerInsertAll L (a ++ b) = ledgerInsertAll (ledgerInsertAll L a) b :=
  List.foldl_append ..

/-! ## Parser lemmas -/

lemma processInventory_sound {olbl doid d : String} {inv : Inventory}
    {acc : List Row} :
    ∀ r ∈ excRows (processInventory olbl doid d inv acc),
      r ∈ acc ∨ ∃ n : Int, pyInt? r.availableCount = some n ∧ 0 < n := by
  intro r hr
  unfold processInventory at hr
  cases hn : pyInt? inv.availableCount with
  | none =>
      rw [hn] at hr
      dsimp only [excRows] at hr
      exact Or.inl hr
  | some n =>
      rw [hn] at hr
      dsimp only at hr
      by_cases hpos : n > 0
      · rw [if_pos hpos] at hr
        simp only [excRows, List.mem_append, List.mem_singleton] at hr
        rcases hr with hr | rfl
        · exact Or.inl hr
        · exact Or.inr ⟨n, hn, hpos⟩
      · rw [if_neg hpos] at hr
        dsimp only [excRows] at hr
        exact Or.inl hr

lemma processInventories_sound {olbl doid d : String} :
    ∀ (invs : List Inventory) (acc : List Row),
      ∀ r ∈ excRows (processInventories olbl doid d invs acc),
        r ∈ acc ∨ ∃ n : Int, pyInt? r.availableCount = some n ∧ 0 < n := by
  intro invs
  induction invs with
  | nil => intro acc r hr; exact Or.inl hr
  | cons inv rest ih =>
      intro acc r hr
      unfold processInventories at hr
      cases h : processInventory olbl doid d inv acc with
      | error a =>
          rw [h] at hr
          have : r ∈ excRows (processInventory olbl doid d inv acc) := by
            rw [h]; exact hr
          exact processInventory_sound r this
      | ok a =>
          rw [h] at hr
          rcases ih a r hr with ha | hg
          · have : r ∈ excRows (processInventory olbl doid d inv acc) := by
              rw [h]; exact ha
            exact processInventory_sound r this
          · exact Or.inr hg

lemma processDays_sound {olbl doid : String} :
    ∀ (days : List CalendarDay) (acc : List Row),
      ∀ r ∈ excRows (processDays olbl doid days acc),
        r ∈ acc ∨ ∃ n : Int, pyInt? r.availableCount = some n ∧ 0 < n := by
  intro days
  induction days with
  | nil => intro acc r hr; exact Or.inl hr
  | cons day rest ih =>
      intro acc r hr
      unfold processDays at hr
      by_cases hav : day.available
      · rw [if_pos hav] at hr
        cases h : processInventories olbl doid day.date day.inventoryOfferings acc with
        | error a =>
            rw [h] at hr
            have : r ∈ excRows (processInventories olbl doid day.date
                day.inventoryOfferings acc) := by rw [h]; exact hr
            exact processInventories_sound _ _ r this
        | ok a =>
            rw [h] at hr
            rcases ih a r hr with ha | hg
            · have : r ∈ excRows (processInventories olbl doid day.date
                  day.inventoryOfferings acc) := by rw [h]; exact ha
              exact processInventories_sound _ _ r this
            · exact Or.inr hg
      · rw [if_neg hav] at hr
        exact ih acc r hr

lemma processAccommodations_sound {olbl doid : String} :
    ∀ (accs : List Accommodation) (acc : List Row),
      ∀ r ∈ excRows (processAccommodations olbl doid accs acc),
        r ∈ acc ∨ ∃ n : Int, pyInt? r.availableCount = some n ∧ 0 < n := by
  intro accs
  induction accs with
  | nil => intro acc r hr; exact Or.inl hr
  | cons a rest ih =>
      intro acc r hr
      unfold processAccommodations at hr
      cases h : processDays olbl doid a.calendarDays acc with
      | error b =>
          rw [h] at hr
          have : r ∈ excRows (processDays olbl doid a.calendarDays acc) := by
            rw [h]; exact hr
          exact processDays_sound _ _ r this
      | ok b =>
          rw [h] at hr
          rcases ih b r hr with hb | hg
          · have : r ∈ excRows (processDays olbl doid a.calendarDays acc) := by
              rw [h]; exact hb
            exact processDays_sound _ _ r this
          · exact Or.inr hg

lemma processOfferings_sound :
    ∀ (offs : List Offering) (acc : List Row),
      ∀ r ∈ excRows (processOfferings offs acc),
        r ∈ acc ∨ ∃ n : Int, pyInt? r.availableCount = some n ∧ 0 < n := by
  intro offs
  induction offs with
  | nil => intro acc r hr; exact Or.inl hr
  | cons o rest ih =>
      intro acc r hr
      unfold processOfferings at hr
      cases h : processAccommodations o.offeringLabel
          (displayOfferingId o.offeringId o.offeringLabel)
          o.accomdationClasses acc with
      | error b =>
          rw [h] at hr
          have : r ∈ excRows (processAccommodations o.offeringLabel
              (displayOfferingId o.offeringId o.offeringLabel)
              o.accomdationClasses acc) := by rw [h]; exact hr
          exact processAccommodations_sound _ _ r this
      | ok b =>
          rw [h] at hr
          rcases ih b r hr with hb | hg
          · have : r ∈ excRows (processAccommodations o.offeringLabel
                (displayOfferingId o.offeringId o.offeringLabel)
                o.accomdationClasses acc) := by rw [h]; exact hb
            exact processAccommodations_sound _ _ r this
          · exact Or.inr hg

lemma processResorts_sound :
    ∀ (rs : List Resort) (acc : List Row),
      ∀ r ∈ excRows (processResorts rs acc),
        r ∈ acc ∨ ∃ n : Int, pyInt? r.availableCount = some n ∧ 0 < n := by
  intro rs
  induction rs with
  | nil => intro acc r hr; exact Or.inl hr
  | cons res rest ih =>
      intro acc r hr
      unfold processResorts at hr
      by_cases hu : res.hasAvailableUnits
      · rw [if_pos hu] at hr
        cases h : processOfferings res.resortOfferings acc with
        | error b =>
            rw [h] at hr
            have : r ∈ excRows (processOfferings res.resortOfferings acc) := by
              rw [h]; exact hr
            exact processOfferings_sound _ _ r this
        | ok b =>
            rw [h] at hr
            rcases ih b r hr with hb | hg
            · have : r ∈ excRows (processOfferings res.resortOfferings acc) := by
                rw [h]; exact hb
              exact processOfferings_sound _ _ r this
            · exact Or.inr hg
      · rw [if_neg hu] at hr
        exact ih acc r hr

lemma parseResponse_sound {p : Payload} {r : Row} (hr : r ∈ parseResponse p) :
    ∃ n : Int, pyInt? r.availableCount = some n ∧ 0 < n := by
  unfold parseResponse at hr
  by_cases h : p.resorts = []
  · rw [if_pos h] at hr; cases hr
  · rw [if_neg h] at hr
    rcases processResorts_sound p.resorts [] r hr with ha | hg
    · cases ha
    · exact hg

lemma processResorts_all_skipped :
    ∀ {rs : List Resort} (acc : List Row),
      (∀ res ∈ rs, res.hasAvailableUnits = false) →
      processResorts rs acc = .ok acc
  | [], _, _ => rfl
  | res :: rest, acc, h => by
      unfold processResorts
      rw [if_neg (by simp [h res (List.mem_cons_self _ _)])]
      exact processResorts_all_skipped acc (fun r hr => h r (List.mem_cons_of_mem _ hr))

lemma parseResponse_single :
    ∀ (oid olbl d : String) (invs : List Inventory),
      parseResponse (mkSinglePayload true oid olbl true d invs)
        = excRows (processInventories olbl (displayOfferingId oid olbl) d invs []) := by
  intro oid olbl d invs
  unfold parseResponse mkSinglePayload
  rw [if_neg (by simp)]
  cases h : processInventories olbl (displayOfferingId oid olbl) d invs [] with
  | error a =>
      simp [processResorts, processOfferings, processAccommodations, processDays, h]
  | ok a =>
      simp [processResorts, processOfferings, processAccommodations, processDays, h]

lemma processInventories_cut (olbl doid d : String) {bad : Inventory}
    (hbad : pyInt? bad.availableCount = none) (post : List Inventory) :
    ∀ (pre : List Inventory) (acc : List Row),
      processInventories olbl doid d (pre ++ bad :: post) acc
        = .error (excRows (processInventories olbl doid d pre acc))
  | [], acc => by
      simp only [List.nil_append, processInventories, processInventory, hbad]
      rfl
  | inv :: pre, acc => by
      simp only [List.cons_append, processInventories]
      cases h : processInventory olbl doid d inv acc with
      | error a => rfl
      | ok a => exact processInventories_cut olbl doid d hbad post pre a

lemma processDays_cut (olbl doid d : String) {invsF invsT : List Inventory}
    (hcut : ∀ acc, processInventories olbl doid d invsF acc
      = .error (excRows (processInventories olbl doid d invsT acc)))
    (postDays : List CalendarDay) :
    ∀ (preDays : List CalendarDay) (acc : List Row),
      processDays olbl doid (preDays ++ ⟨true, d, invsF⟩ :: postDays) acc
        = .error (excRows (processDays olbl doid
            (preDays ++ [⟨true, d, invsT⟩]) acc))
  | [], acc => by
      simp only [List.nil_append, processDays]
      rw [if_pos trivial, if_pos trivial, hcut acc]
      cases h : processInventories olbl doid d invsT acc with
      | error a => rfl
      | ok a => rfl
  | day :: preDays, acc => by
      simp only [List.cons_append, processDays]
      by_cases hav : day.available = true
      · rw [if_pos hav, if_pos hav]
        cases h : processInventories olbl doid day.date day.inventoryOfferings acc with
        | error a => rfl
        | ok a => exact processDays_cut olbl doid d hcut postDays preDays a
      · rw [if_neg hav, if_neg hav]
        exact processDays_cut olbl doid d hcut postDays preDays acc

lemma processAccommodations_cut (olbl doid : String)
    {daysF daysT : List CalendarDay}
    (hcut : ∀ acc, processDays olbl doid daysF acc
      = .error (excRows (processDays olbl doid daysT acc)))
    (postAccs : List Accommodation) :
    ∀ (preAccs : List Accommodation) (acc : List Row),
      processAccommodations olbl doid (preAccs ++ ⟨daysF⟩ :: postAccs) acc
        = .error (excRows (processAccommodations olbl doid
            (preAccs ++ [⟨daysT⟩]) acc))
  | [], acc => by
      simp only [List.nil_append, processAccommodations]
      rw [hcut acc]
      cases h : processDays olbl doid daysT acc with
      | error a => rfl
      | ok a => rfl
  | a0 :: preAccs, acc => by
      simp only [List.cons_append, processAccommodations]
      cases h : processDays olbl doid a0.calendarDays acc with
      | error b => rfl
      | ok b => exact processAccommodations_cut olbl doid hcut postAccs preAccs b

lemma processOfferings_cut (oid olbl : String)
    {accsF accsT : List Accommodation}
    (hcut : ∀ acc, processAccommodations olbl (displayOfferingId oid olbl) accsF acc
      = .error (excRows
          (processAccommodations olbl (displayOfferingId oid olbl) accsT acc)))
    (postOffs : List Offering) :
    ∀ (preOffs : List Offering) (acc : List Row),
      processOfferings (preOffs ++ ⟨oid, olbl, accsF⟩ :: postOffs) acc
        = .error (excRows (processOfferings (preOffs ++ [⟨oid, olbl, accsT⟩]) acc))
  | [], acc => by
      simp only [List.nil_append, processOfferings]
      rw [hcut acc]
      cases h : processAccommodations olbl (displayOfferingId oid olbl) accsT acc with
      | error a => rfl
      | ok a => rfl
  | o :: preOffs, acc => by
      simp only [List.cons_append, processOfferings]
      cases h : processAccommodations o.offeringLabel
          (displayOfferingId o.offeringId o.offeringLabel)
          o.accomdationClasses acc with
      | error b => rfl
      | ok b => exact processOfferings_cut oid olbl hcut postOffs preOffs b

lemma processResorts_cut {offsF offsT : List Offering}
    (hcut : ∀ acc, processOfferings offsF acc
      = .error (excRows (processOfferings offsT acc)))
    (postResorts : List Resort) :
    ∀ (preResorts : List Resort) (acc : List Row),
      processResorts (preResorts ++ ⟨true, offsF⟩ :: postResorts) acc
        = .error (excRows (processResorts (preResorts ++ [⟨true, offsT⟩]) acc))
  | [], acc => by
      simp only [List.nil_append, processResorts]
      rw [if_pos trivial, if_pos trivial, hcut acc]
      cases h : processOfferings offsT acc with
      | error a => rfl
      | ok a => rfl
  | res :: preResorts, acc => by
      simp only [List.cons_append, processResorts]
      by_cases hu : res.hasAvailableUnits = true
      · rw [if_pos hu, if_pos hu]
        cases h : processOfferings res.resortOfferings acc with
        | error b => rfl
        | ok b => exact processResorts_cut hcut postResorts preResorts b
      · rw [if_neg hu, if_neg hu]
        exact processResorts_cut hcut postResorts preResorts acc

lemma parseResponse_single_entry {oid olbl d cnt hk lbl : String} {n : Int}
    (hn : pyInt? cnt = some n) (hpos : 0 < n) :
    parseResponse (mkSinglePayload true oid olbl true d [⟨cnt, hk, lbl⟩])
      = [⟨d, displayOfferingId oid olbl, hk, adjustInventoryLabel olbl lbl, cnt⟩] := by
  rw [parseResponse_single]
  simp [processInventories, processInventory, hn, hpos, excRows]

/-! ## Order-independence machinery -/

lemma nodup_ledgerInsertAll (rows : List Row) :
    (ledgerInsertAll [] rows).Nodup :=
  (map_idKey_nodup_ledgerInsertAll rows [] (by simp)).of_map

lemma mem_ledgerInsertAll_iff_of_inj {rows : List Row}
    (hinj : ∀ a ∈ rows, ∀ b ∈ rows, idKey a = idKey b → a = b) {r : Row} :
    r ∈ ledgerInsertAll [] rows ↔ r ∈ rows := by
  constructor
  · intro h
    rcases mem_of_mem_ledgerInsertAll h with h' | h'
    · cases h'
    · exact h'
  · intro h
    have hk : keyMem (ledgerInsertAll [] rows) (idKey r) = true :=
      keyMem_ledgerInsertAll_of_mem h
    rw [keyMem_iff] at hk
    obtain ⟨s, hs, hks⟩ := hk
    have hs' : s ∈ rows := by
      rcases mem_of_mem_ledgerInsertAll hs with h' | h'
      · cases h'
      · exact h'
    have : s = r := hinj s hs' r h hks
    exact this ▸ hs

lemma sorted_perm_eq :
    ∀ {l₁ l₂ : List Row}, l₁ ~ l₂ →
      l₁.Pairwise (fun a b => rowLE a b = true) →
      l₂.Pairwise (fun a b => rowLE a b = true) →
      (∀ a ∈ l₁, ∀ b ∈ l₁, sortKey a = sortKey b → a = b) →
      l₁ = l₂
  | [], l₂, hp, _, _, _ => hp.nil_eq
  | a :: t₁, l₂, hp, hs₁, hs₂, hinj => by
      cases l₂ with
      | nil => cases hp.eq_nil
      | cons b t₂ =>
          have ha₂ : a ∈ b :: t₂ := hp.subset (List.mem_cons_self _ _)
          have hab : a = b := by
            by_cases h : a = b
            · exact h
            · have ha₂' : a ∈ t₂ := by
                rcases List.mem_cons.mp ha₂ with h' | h'
                · exact absurd h' h
                · exact h'
              have hba : rowLE b a = true := List.rel_of_pairwise_cons hs₂ ha₂'
              have hb₁ : b ∈ a :: t₁ := hp.symm.subset (List.mem_cons_self _ _)
              have hb₁' : b ∈ t₁ := by
                rcases List.mem_cons.mp hb₁ with h' | h'
                · exact absurd h'.symm h
                · exact h'
              have hab' : rowLE a b = true := List.rel_of_pairwise_cons hs₁ hb₁'
              exact hinj a (List.mem_cons_self _ _) b (List.mem_cons_of_mem _ hb₁')
                (sortKey_eq_of_rowLE hab' hba)
          subst hab
          have hp' : t₁ ~ t₂ := hp.cons_inv
          have ht : t₁ = t₂ :=
            sorted_perm_eq hp' (List.pairwise_cons.mp hs₁).2
              (List.pairwise_cons.mp hs₂).2
              (fun x hx y hy h =>
                hinj x (List.mem_cons_of_mem _ hx) y (List.mem_cons_of_mem _ hy) h)
          rw [ht]

lemma idKey_inj_of_sortKey_inj {rows : List Row}
    (hinj : ∀ a ∈ rows, ∀ b ∈ rows, sortKey a = sortKey b → a = b) :
    ∀ a ∈ rows, ∀ b ∈ rows, idKey a = idKey b → a = b := by
  intro a ha b hb h
  apply hinj a ha b hb
  unfold idKey at h
  unfold sortKey
  simp only [Prod.mk.injEq] at h ⊢
  exact ⟨h.1, h.2.1, h.2.2.2⟩

lemma snapshot_insertAll_eq_of_perm {rows₁ rows₂ : List Row}
    (hperm : rows₁ ~ rows₂)
    (hinj : ∀ a ∈ rows₁, ∀ b ∈ rows₁, sortKey a = sortKey b → a = b) :
    snapshotSorted (ledgerInsertAll [] rows₁)
      = snapshotSorted (ledgerInsertAll [] rows₂) := by
  have hinj₂ : ∀ a ∈ rows₂, ∀ b ∈ rows₂, sortKey a = sortKey b → a = b :=
    fun a ha b hb h =>
      hinj a (hperm.mem_iff.mpr ha) b (hperm.mem_iff.mpr hb) h
  have hd₁ : (ledgerInsertAll [] rows₁).Nodup := nodup_ledgerInsertAll rows₁
  have hd₂ : (ledgerInsertAll [] rows₂).Nodup := nodup_ledgerInsertAll rows₂
  have hmem : ∀ r, r ∈ ledgerInsertAll [] rows₁ ↔ r ∈ ledgerInsertAll [] rows₂ :=
    fun r =>
      (mem_ledgerInsertAll_iff_of_inj (idKey_inj_of_sortKey_inj hinj)).trans
        (hperm.mem_iff.trans
          (mem_ledgerInsertAll_iff_of_inj (idKey_inj_of_sortKey_inj hinj₂)).symm)
  have hdperm : ledgerInsertAll [] rows₁ ~ ledgerInsertAll [] rows₂ :=
    (List.perm_ext_iff_of_nodup hd₁ hd₂).mpr hmem
  have hs₁ : (snapshotSorted (ledgerInsertAll [] rows₁)).Pairwise
      (fun a b => rowLE a b = true) :=
    List.sorted_mergeSort rowLE_trans rowLE_total _
  have hs₂ : (snapshotSorted (ledgerInsertAll [] rows₂)).Pairwise
      (fun a b => rowLE a b = true) :=
    List.sorted_mergeSort rowLE_trans rowLE_total _
  have hperm' : snapshotSorted (ledgerInsertAll [] rows₁)
      ~ snapshotSorted (ledgerInsertAll [] rows₂) :=
    (List.mergeSort_perm _ rowLE).trans
      (hdperm.trans (List.mergeSort_perm _ rowLE).symm)
  apply sorted_perm_eq hperm' hs₁ hs₂
  intro a ha b hb h
  have ha' : a ∈ rows₁ := by
    have hm : a ∈ ledgerInsertAll [] rows₁ := List.mem_mergeSort.mp ha
    rcases mem_of_mem_ledgerInsertAll hm with h' | h'
    · cases h'
    · exact h'
  have hb' : b ∈ rows₁ := by
    have hm : b ∈ ledgerInsertAll [] rows₁ := List.mem_mergeSort.mp hb
    rcases mem_of_mem_ledgerInsertAll hm with h' | h'
    · cases h'
    · exact h'
  exact hinj a ha' b hb' h

lemma ingestPayloads_eq_insertAll_flat :
    ∀ (ps : List Payload) (L : List Row),
      ps.foldl (fun acc p => ledgerInsertAll acc (parseResponse p)) L
        = ledgerInsertAll L (ps.flatMap parseResponse)
  | [], L => rfl
  | p :: ps, L => by
      show ps.foldl _ (ledgerInsertAll L (parseResponse p)) = _
      rw [ingestPayloads_eq_insertAll_flat ps (ledgerInsertAll L (parseResponse p))]
      rw [List.flatMap_cons, ledgerInsertAll_append]

lemma foldl_insertAll_flatten :
    ∀ (bs : List (List Row)) (L : List Row),
      bs.foldl ledgerInsertAll L = ledgerInsertAll L bs.flatten
  | [], L => rfl
  | b :: bs, L => by
      show bs.foldl ledgerInsertAll (ledgerInsertAll L b) = _
      rw [foldl_insertAll_flatten bs (ledgerInsertAll L b)]
      rw [List.flatten_cons, ledgerInsertAll_append]

lemma presidentialLoop_add :
    ∀ (rows : List Row) (c : Nat),
      (∀ r ∈ rows, (pyInt? r.availableCount).isSome = true) →
      presidentialLoop rows c
        = c + (rows.filter (fun r => !(r.invenOffrngLabel == "")
            && (pyIn "Presidential" r.invenOffrngLabel
              || pyIn "Presidential" r.offeringId))).length
  | [], c, _ => by simp [presidentialLoop]
  | row :: rest, c, hall => by
      have hrow : (pyInt? row.availableCount).isSome = true :=
        hall row (List.mem_cons_self _ _)
      have hrest : ∀ r ∈ rest, (pyInt? r.availableCount).isSome = true :=
        fun r hr => hall r (List.mem_cons_of_mem _ hr)
      obtain ⟨n, hn⟩ := Option.isSome_iff_exists.mp hrow
      unfold presidentialLoop
      rw [hn]
      dsimp only
      by_cases hlbl : row.invenOffrngLabel = ""
      · rw [if_neg (by simp [hlbl])]
        rw [presidentialLoop_add rest c hrest]
        rw [List.filter_cons]
        rw [if_neg (by simp [hlbl])]
      · rw [if_pos (by simp [hlbl])]
        by_cases hpres : (pyIn "Presidential" row.invenOffrngLabel
            || pyIn "Presidential" row.offeringId) = true
        · rw [if_pos hpres]
          rw [presidentialLoop_add rest (c + 1) hrest]
          rw [List.filter_cons, if_pos (by simp [hlbl, hpres])]
          simp [Nat.add_comm, Nat.add_assoc, Nat.add_left_comm]
        · rw [if_neg hpres]
          rw [presidentialLoop_add rest c hrest]
          rw [List.filter_cons, if_neg (by simp [hlbl]; simpa using hpres)]

/-! ## Claim theorems -/

/-- Claim C1: for every sequence of records offered to the Ledger, the stored
records (and those of any sorted snapshot) have pairwise distinct identity
keys, and offering a record whose identity key is already present leaves the
ledger unchanged — the first inserted record wins and the new occurrence
(with its `availableCount`) is discarded. -/
theorem claim_C1_identity_uniqueness (rows L : List Row) (r : Row) :
    ((ledgerInsertAll [] rows).map idKey).Nodup
    ∧ ((snapshotSorted (ledgerInsertAll [] rows)).map idKey).Nodup
    ∧ (keyMem L (idKey r) = true → ledgerInsert L r = L) := by
  have h1 := map_idKey_nodup_ledgerInsertAll rows [] (by simp)
  refine ⟨h1, ?_, fun h => ledgerInsert_of_keyMem h⟩
  have hp : snapshotSorted (ledgerInsertAll [] rows) ~ ledgerInsertAll [] rows :=
    List.mergeSort_perm _ _
  exact ((hp.map idKey).nodup_iff).mpr h1

/-- Witness for C1 at concrete data: `rowD3` collides with `rowD2` (same
identity key, different count) and is discarded. -/
theorem claim_C1_identity_uniqueness_witness :
    keyMem [rowD2] (idKey rowD3) = true
    ∧ ((ledgerInsertAll [] [rowD2, rowB]).map idKey).Nodup
    ∧ ((snapshotSorted (ledgerInsertAll [] [rowD2, rowB])).map idKey).Nodup
    ∧ ledgerInsert [rowD2] rowD3 = [rowD2] :=
  ⟨by decide,
   (claim_C1_identity_uniqueness [rowD2, rowB] [rowD2] rowD3).1,
   (claim_C1_identity_uniqueness [rowD2, rowB] [rowD2] rowD3).2.1,
   (claim_C1_identity_uniqueness [rowD2, rowB] [rowD2] rowD3).2.2 (by decide)⟩

/-- Claim C2 counterexample: in `payloadBadThenGood` the first inventory
entry's count "abc" is unparseable; the claim says the well-formed sibling
(count "5") is still emitted, but the code emits nothing — the exception
aborts the remainder of the payload.  The sibling alone parses to one
record, so it is not itself at fault. -/
theorem claim_C2_counterexample :
    parseResponse payloadBadThenGood = []
    ∧ parseResponse payloadGoodOnly = [⟨"2025-06-01", "A1", "h2", "K2", "5"⟩] :=
  ⟨by decide, by decide⟩

/-- Claim C2 (amended): when an inventory entry's `availableCount` fails to
parse, the records emitted before it are kept, but the failing entry and all
remaining content of the payload — later sibling entries, later days, later
accommodation classes, later offerings, later resorts — are skipped: for a
failing entry at an arbitrary position of the tree, parsing the payload
equals parsing the payload truncated just before the failing entry. -/
theorem claim_C2_amended_partial_abort
    (preResorts postResorts : List Resort)
    (preOffs postOffs : List Offering) (oid olbl : String)
    (preAccs postAccs : List Accommodation)
    (preDays postDays : List CalendarDay) (d : String)
    (preInvs postInvs : List Inventory) (bad : Inventory)
    (hbad : pyInt? bad.availableCount = none) :
    parseResponse ⟨preResorts
        ++ ⟨true, preOffs
            ++ ⟨oid, olbl, preAccs
                ++ ⟨preDays
                    ++ ⟨true, d, preInvs ++ bad :: postInvs⟩ :: postDays⟩
                  :: postAccs⟩
              :: postOffs⟩
          :: postResorts⟩
      = parseResponse ⟨preResorts
          ++ [⟨true, preOffs
              ++ [⟨oid, olbl, preAccs
                  ++ [⟨preDays ++ [⟨true, d, preInvs⟩]⟩]⟩]⟩]⟩ := by
  have h1 : ∀ acc, processInventories olbl (displayOfferingId oid olbl) d
      (preInvs ++ bad :: postInvs) acc
      = .error (excRows (processInventories olbl (displayOfferingId oid olbl) d
          preInvs acc)) :=
    fun acc => processInventories_cut olbl (displayOfferingId oid olbl) d
      hbad postInvs preInvs acc
  have h2 := processDays_cut olbl (displayOfferingId oid olbl) d h1 postDays
  have h3 := processAccommodations_cut olbl (displayOfferingId oid olbl)
    (fun acc => h2 preDays acc) postAccs
  have h4 := processOfferings_cut oid olbl (fun acc => h3 preAccs acc) postOffs
  have h5 := processResorts_cut (fun acc => h4 preOffs acc) postResorts
  unfold parseResponse
  rw [if_neg (by simp), if_neg (by simp)]
  show excRows _ = excRows _
  rw [h5 preResorts []]
  rfl

/-- Witness for the amended C2: the malformed entry sits after a good
sibling, and a later inventory entry, a later day and a later resort are all
present on the full side and absent from the truncated side. -/
theorem claim_C2_amended_partial_abort_witness :
    pyInt? invBad.availableCount = none
    ∧ parseResponse ⟨[]
        ++ ⟨true, []
            ++ ⟨"A1", "L", []
                ++ ⟨[]
                    ++ ⟨true, "2025-06-01",
                        [invGood] ++ invBad :: [⟨"7", "h3", "K3"⟩]⟩
                      :: [⟨true, "2025-06-03", [⟨"9", "h9", "Z"⟩]⟩]⟩
                  :: []⟩
              :: []⟩
          :: [⟨true, [⟨"B2", "L",
              [⟨[⟨true, "2025-06-02", [⟨"1", "h2", "Q"⟩]⟩]⟩]⟩]⟩]⟩
      = parseResponse ⟨[]
          ++ [⟨true, []
              ++ [⟨"A1", "L", []
                  ++ [⟨[] ++ [⟨true, "2025-06-01", [invGood]⟩]⟩]⟩]⟩]⟩ :=
  ⟨by decide,
   claim_C2_amended_partial_abort
     [] [⟨true, [⟨"B2", "L", [⟨[⟨true, "2025-06-02", [⟨"1", "h2", "Q"⟩]⟩]⟩]⟩]⟩]
     [] [] "A1" "L"
     [] []
     [] [⟨true, "2025-06-03", [⟨"9", "h9", "Z"⟩]⟩] "2025-06-01"
     [invGood] [⟨"7", "h3", "K3"⟩] invBad (by decide)⟩

/-- Claim C3 counterexample: the same two payloads fed in the two arrival
orders give different sorted snapshots — first-wins keeps count "2" in one
order and count "3" in the other. -/
theorem claim_C3_counterexample :
    snapshotSorted (ingestPayloads [payloadCount2, payloadCount3])
      ≠ snapshotSorted (ingestPayloads [payloadCount3, payloadCount2]) := by
  have h₁ : ingestPayloads [payloadCount2, payloadCount3]
      = [⟨"2025-06-01", "A1", "h1", "K", "2"⟩] := by decide
  have h₂ : ingestPayloads [payloadCount3, payloadCount2]
      = [⟨"2025-06-01", "A1", "h1", "K", "3"⟩] := by decide
  rw [h₁, h₂]
  simp [snapshotSorted]

/-- Claim C3 (amended): feeding the same payloads in different arrival orders
yields identical `snapshotSorted()` sequences provided distinct parsed
records never share a (date, offeringId, invenOffrngLabel) sort key (in
particular no two occurrences of one identity key carry different counts). -/
theorem claim_C3_amended_order_independence (ps₁ ps₂ : List Payload)
    (hperm : ps₁ ~ ps₂)
    (hinj : ∀ a ∈ ps₁.flatMap parseResponse, ∀ b ∈ ps₁.flatMap parseResponse,
      sortKey a = sortKey b → a = b) :
    snapshotSorted (ingestPayloads ps₁) = snapshotSorted (ingestPayloads ps₂) := by
  unfold ingestPayloads
  rw [ingestPayloads_eq_insertAll_flat, ingestPayloads_eq_insertAll_flat]
  exact snapshot_insertAll_eq_of_perm (hperm.flatMap_right parseResponse) hinj

/-- Witness for the amended C3: two payloads with distinct sort keys, swapped
arrival orders. -/
theorem claim_C3_amended_order_independence_witness :
    ([payloadCount2, payloadB] ~ [payloadB, payloadCount2])
    ∧ (∀ a ∈ [payloadCount2, payloadB].flatMap parseResponse,
        ∀ b ∈ [payloadCount2, payloadB].flatMap parseResponse,
        sortKey a = sortKey b → a = b)
    ∧ snapshotSorted (ingestPayloads [payloadCount2, payloadB])
      = snapshotSorted (ingestPayloads [payloadB, payloadCount2]) :=
  ⟨List.Perm.swap payloadB payloadCount2 [], by decide,
   claim_C3_amended_order_independence [payloadCount2, payloadB]
     [payloadB, payloadCount2] (List.Perm.swap payloadB payloadCount2 [])
     (by decide)⟩

/-- Claim C4: zero records come from an empty/missing resorts collection,
from resorts with falsy `hasAvailableUnits`, from days with falsy
`available`, and from entries whose count parses to 0; every emitted record
has a parsed `availableCount` strictly greater than 0. -/
theorem claim_C4_filter_correctness :
    parseResponse ⟨[]⟩ = []
    ∧ (∀ rs : List Resort, (∀ res ∈ rs, res.hasAvailableUnits = false) →
        parseResponse ⟨rs⟩ = [])
    ∧ (∀ oid olbl d invs,
        parseResponse (mkSinglePayload true oid olbl false d invs) = [])
    ∧ (∀ oid olbl d hk lbl,
        parseResponse (mkSinglePayload true oid olbl true d [⟨"0", hk, lbl⟩]) = [])
    ∧ (∀ (p : Payload) (r : Row), r ∈ parseResponse p →
        ∃ n : Int, pyInt? r.availableCount = some n ∧ 0 < n) := by
  refine ⟨rfl, ?_, ?_, ?_, fun p r hr => parseResponse_sound hr⟩
  · intro rs h
    unfold parseResponse
    by_cases hrs : rs = []
    · rw [if_pos hrs]
    · rw [if_neg hrs]
      show excRows (processResorts rs []) = []
      rw [processResorts_all_skipped [] h]
      rfl
  · intro oid olbl d invs
    simp [parseResponse, mkSinglePayload, processResorts, processOfferings,
      processAccommodations, processDays, excRows]
  · intro oid olbl d hk lbl
    have h0 : pyInt? "0" = some 0 := by decide
    rw [parseResponse_single]
    simp [processInventories, processInventory, h0, excRows]

/-- Witness for C4 at concrete data. -/
theorem claim_C4_filter_correctness_witness :
    (∀ res ∈ [(⟨false, [⟨"A1", "L", []⟩]⟩ : Resort)], res.hasAvailableUnits = false)
    ∧ parseResponse ⟨[⟨false, [⟨"A1", "L", []⟩]⟩]⟩ = []
    ∧ rowD2 ∈ parseResponse payloadCount2
    ∧ (∃ n : Int, pyInt? rowD2.availableCount = some n ∧ 0 < n) :=
  ⟨by decide,
   claim_C4_filter_correctness.2.1 [⟨false, [⟨"A1", "L", []⟩]⟩] (by decide),
   by decide,
   claim_C4_filter_correctness.2.2.2.2 payloadCount2 rowD2 (by decide)⟩

/-- Claim C5: Presidential Reserve normalization — the offering id gains the
phrase exactly when the label has it and the id lacks it, it is left alone
otherwise, and an inventory label without the phrase under such an offering
gains the " (Presidential Reserve)" suffix; an emitted record carries exactly
these normalized fields. -/
theorem claim_C5_presidential_normalization
    (oid olbl lbl d cnt hk : String) (n : Int) :
    (pyIn prPhrase olbl = true → pyIn prPhrase oid = false →
      displayOfferingId oid olbl = oid ++ " Presidential Reserve")
    ∧ (pyIn prPhrase oid = true → displayOfferingId oid olbl = oid)
    ∧ (pyIn prPhrase olbl = false → displayOfferingId oid olbl = oid)
    ∧ (pyIn prPhrase olbl = true → pyIn prPhrase lbl = false →
      adjustInventoryLabel olbl lbl = lbl ++ " (Presidential Reserve)")
    ∧ (pyInt? cnt = some n → 0 < n →
      parseResponse (mkSinglePayload true oid olbl true d [⟨cnt, hk, lbl⟩])
        = [⟨d, displayOfferingId oid olbl, hk, adjustInventoryLabel olbl lbl, cnt⟩]) := by
  refine ⟨?_, ?_, ?_, ?_, fun hn hpos => parseResponse_single_entry hn hpos⟩
  · intro h1 h2
    simp [displayOfferingId, h1, h2]
  · intro h
    simp [displayOfferingId, h]
  · intro h
    simp [displayOfferingId, h]
  · intro h1 h2
    simp [adjustInventoryLabel, h1, h2]

/-- Witness for C5 at the spec's own example strings. -/
theorem claim_C5_presidential_normalization_witness :
    pyIn prPhrase "Presidential Reserve Suite" = true
    ∧ pyIn prPhrase "WYN123" = false
    ∧ pyIn prPhrase "King Suite" = false
    ∧ displayOfferingId "WYN123" "Presidential Reserve Suite"
        = "WYN123" ++ " Presidential Reserve"
    ∧ adjustInventoryLabel "Presidential Reserve Suite" "King Suite"
        = "King Suite" ++ " (Presidential Reserve)"
    ∧ parseResponse (mkSinglePayload true "WYN123" "Presidential Reserve Suite"
        true "2025-06-01" [⟨"2", "h1", "King Suite"⟩])
      = [⟨"2025-06-01", displayOfferingId "WYN123" "Presidential Reserve Suite",
          "h1", adjustInventoryLabel "Presidential Reserve Suite" "King Suite", "2"⟩] :=
  ⟨by decide, by decide, by decide,
   (claim_C5_presidential_normalization "WYN123" "Presidential Reserve Suite"
     "King Suite" "2025-06-01" "2" "h1" 2).1 (by decide) (by decide),
   (claim_C5_presidential_normalization "WYN123" "Presidential Reserve Suite"
     "King Suite" "2025-06-01" "2" "h1" 2).2.2.2.1 (by decide) (by decide),
   (claim_C5_presidential_normalization "WYN123" "Presidential Reserve Suite"
     "King Suite" "2025-06-01" "2" "h1" 2).2.2.2.2 (by decide) (by decide)⟩

/-- Claim C6: regenerate rewrites the artifact as the header row followed by
all stored records sorted ascending by the (date, offeringId,
invenOffrngLabel) lexicographic key, with ties broken stably in insertion
order. -/
theorem claim_C6_regenerate_sorted (L : List Row) (a b : Row) :
    regenerateOutput L = csvHeader :: (snapshotSorted L).map rowFields
    ∧ snapshotSorted L ~ L
    ∧ (snapshotSorted L).Pairwise (fun x y => rowLE x y = true)
    ∧ (List.Sublist [a, b] L → sortKey a = sortKey b →
        List.Sublist [a, b] (snapshotSorted L)) := by
  refine ⟨rfl, List.mergeSort_perm L rowLE,
    List.sorted_mergeSort rowLE_trans rowLE_total L, ?_⟩
  intro hsub hkey
  exact List.pair_sublist_mergeSort rowLE_trans rowLE_total
    (rowLE_of_sortKey_eq hkey) hsub

/-- Witness for C6: two sort-key-tied records stay in insertion order. -/
theorem claim_C6_regenerate_sorted_witness :
    List.Sublist [rowD2, rowD3] [rowD2, rowD3]
    ∧ sortKey rowD2 = sortKey rowD3
    ∧ regenerateOutput [rowD2, rowD3]
        = csvHeader :: (snapshotSorted [rowD2, rowD3]).map rowFields
    ∧ snapshotSorted [rowD2, rowD3] ~ [rowD2, rowD3]
    ∧ (snapshotSorted [rowD2, rowD3]).Pairwise (fun x y => rowLE x y = true)
    ∧ List.Sublist [rowD2, rowD3] (snapshotSorted [rowD2, rowD3]) :=
  ⟨List.Sublist.refl _, by decide,
   (claim_C6_regenerate_sorted [rowD2, rowD3] rowD2 rowD3).1,
   (claim_C6_regenerate_sorted [rowD2, rowD3] rowD2 rowD3).2.1,
   (claim_C6_regenerate_sorted [rowD2, rowD3] rowD2 rowD3).2.2.1,
   (claim_C6_regenerate_sorted [rowD2, rowD3] rowD2 rowD3).2.2.2
     (List.Sublist.refl _) (by decide)⟩

/-- Claim C7: ingesting the same payload twice is idempotent on the Ledger —
the second ingestion changes neither the ledger nor its size. -/
theorem claim_C7_idempotence (L : List Row) (p : Payload) :
    ledgerInsertAll (ledgerInsertAll L (parseResponse p)) (parseResponse p)
      = ledgerInsertAll L (parseResponse p)
    ∧ ledgerSize (ledgerInsertAll (ledgerInsertAll L (parseResponse p))
        (parseResponse p))
      = ledgerSize (ledgerInsertAll L (parseResponse p)) := by
  have he : ledgerInsertAll (ledgerInsertAll L (parseResponse p)) (parseResponse p)
      = ledgerInsertAll L (parseResponse p) :=
    ledgerInsertAll_of_all_keyMem
      (fun r hr => keyMem_ledgerInsertAll_of_mem hr)
  exact ⟨he, by rw [he]⟩

/-- Claim C8: on a failed write the Sink retries exactly once against the
working-directory fallback; if that also fails the failure is reported and
the in-memory data is untouched, so a later regenerate still works from the
same data. -/
theorem claim_C8_sink_fallback (data : List Row) (pOk fOk : Bool) :
    (sinkWrite data pOk fOk).dataAfter = data
    ∧ (sinkWrite data pOk fOk).attempts
        = (if pOk then [WritePath.primary]
           else [WritePath.primary, WritePath.fallback])
    ∧ (pOk = false → fOk = false →
        (sinkWrite data pOk fOk).reportedFailure = true
        ∧ (sinkWrite data pOk fOk).written = none)
    ∧ regenerateOutput (sinkWrite data pOk fOk).dataAfter
        = regenerateOutput data := by
  cases pOk <;> cases fOk <;> simp [sinkWrite]

/-- Witness for C8 at the double-failure case. -/
theorem claim_C8_sink_fallback_witness :
    (sinkWrite [rowD2] false false).dataAfter = [rowD2]
    ∧ (sinkWrite [rowD2] false false).attempts
        = (if false then [WritePath.primary]
           else [WritePath.primary, WritePath.fallback])
    ∧ ((sinkWrite [rowD2] false false).reportedFailure = true
        ∧ (sinkWrite [rowD2] false false).written = none)
    ∧ regenerateOutput (sinkWrite [rowD2] false false).dataAfter
        = regenerateOutput [rowD2] :=
  ⟨(claim_C8_sink_fallback [rowD2] false false).1,
   (claim_C8_sink_fallback [rowD2] false false).2.1,
   (claim_C8_sink_fallback [rowD2] false false).2.2.1 rfl rfl,
   (claim_C8_sink_fallback [rowD2] false false).2.2.2⟩

/-- Claim C9 counterexample: a row whose `offeringId` contains "Presidential"
but whose label is empty is not counted by the monitor, though the claim says
it is. -/
theorem claim_C9_counterexample :
    presidentialCount [rowPresEmptyLabel] = 0
    ∧ claimedPresidentialCount [rowPresEmptyLabel] = 1 :=
  ⟨by decide, by decide⟩

/-- Claim C9 (amended): the monitor's presidential count equals the number of
rows with a non-empty `invenOffrngLabel` whose label or `offeringId` contains
"Presidential" (for inputs whose counts all parse; an unparseable count
aborts the statistics loop). -/
theorem claim_C9_amended_presidential_count (rows : List Row)
    (hall : ∀ r ∈ rows, (pyInt? r.availableCount).isSome = true) :
    presidentialCount rows
      = (rows.filter (fun r => !(r.invenOffrngLabel == "")
          && (pyIn "Presidential" r.invenOffrngLabel
            || pyIn "Presidential" r.offeringId))).length := by
  unfold presidentialCount
  rw [presidentialLoop_add rows 0 hall]
  simp

/-- Witness for the amended C9. -/
theorem claim_C9_amended_presidential_count_witness :
    (∀ r ∈ [rowD2, rowPresEmptyLabel, rowB],
      (pyInt? r.availableCount).isSome = true)
    ∧ presidentialCount [rowD2, rowPresEmptyLabel, rowB]
      = (([rowD2, rowPresEmptyLabel, rowB]).filter
          (fun r => !(r.invenOffrngLabel == "")
            && (pyIn "Presidential" r.invenOffrngLabel
              || pyIn "Presidential" r.offeringId))).length :=
  ⟨by decide,
   claim_C9_amended_presidential_count [rowD2, rowPresEmptyLabel, rowB]
     (by decide)⟩

/-- Claim C10: batch and incremental paths agree — `aggregate_by_date` over
the collected rows equals first-wins insertion through the watcher ledger
followed by the sorted regenerate, also when the rows arrive in batches. -/
theorem claim_C10_batch_incremental_equiv (rows : List Row)
    (batches : List (List Row)) :
    aggregateByDate rows = snapshotSorted (ledgerInsertAll [] rows)
    ∧ aggregateByDate batches.flatten
      = snapshotSorted (batches.foldl ledgerInsertAll []) := by
  constructor
  · rfl
  · rw [foldl_insertAll_flatten]
    rfl

end Wyndham
